import Mathlib

/-!
Verification of the buildpacks repository's core logic:
the `apphostingschema` package (apphosting.yaml validation) and the
`nodejs` package's Next.js version resolution (`pkg/nodejs/nextjs.go`).

Strings are modelled by Lean `String`; the handful of Go `strings`
functions the source uses (`Split`, `Join`, `HasPrefix`, `Contains`,
`Fields`, `Trim`) are re-implemented over character lists so that every
definition is executable and kernel-reducible.  All inputs processed by
the source at the relevant call sites are ASCII, where Go's byte-wise
operations and the character-wise models below agree.
-/

namespace Buildpacks

/-! ## Models of the Go `strings` functions used by the source -/

/-- Model of Go `strings.HasPrefix(s, pre)`. -/
def goStartsWith (s pre : String) : Bool :=
  pre.data.isPrefixOf s.data

/-- Occurrence of `sub` inside `xs`, scanning left to right
(the semantics of Go `strings.Contains`). -/
def containsSubList (sub : List Char) : List Char → Bool
  | [] => sub.isEmpty
  | x :: rest => sub.isPrefixOf (x :: rest) || containsSubList sub rest

/-- Model of Go `strings.Contains(s, sub)`. -/
def goContains (s sub : String) : Bool :=
  containsSubList sub.data s.data

/-- Split a character list at every element satisfying `p`
(Go `strings.Split` with a one-character separator, generalised to a
predicate so that it also models `strings.Fields`). -/
def splitPredList (p : Char → Bool) : List Char → List (List Char)
  | [] => [[]]
  | x :: rest =>
    if p x then [] :: splitPredList p rest
    else
      match splitPredList p rest with
      | hd :: tl => (x :: hd) :: tl
      | [] => [[x]]

/-- Model of Go `strings.Split(s, sep)` for a one-character separator. -/
def goSplitChar (c : Char) (s : String) : List String :=
  (splitPredList (fun x => x == c) s.data).map List.asString

/-- Join character lists with the one-character separator `c`
(Go `strings.Join` for a one-character separator). -/
def joinSepList (c : Char) : List (List Char) → List Char
  | [] => []
  | [x] => x
  | x :: y :: rest => x ++ c :: joinSepList c (y :: rest)

/-- Model of Go `strings.Join(parts, sep)` for a one-character separator. -/
def goJoinChar (c : Char) (parts : List String) : String :=
  (joinSepList c (parts.map String.data)).asString

/-- Split a character list on the two-character separator `"\n\n"`
(Go `strings.Split(s, "\n\n")`, used for yarn.lock blocks). -/
def splitBlankLineList : List Char → List (List Char)
  | '\n' :: '\n' :: rest => [] :: splitBlankLineList rest
  | x :: rest =>
    match splitBlankLineList rest with
    | hd :: tl => (x :: hd) :: tl
    | [] => [[x]]
  | [] => [[]]

/-- Model of Go `strings.Split(s, "\n\n")`. -/
def goSplitBlocks (s : String) : List String :=
  (splitBlankLineList s.data).map List.asString

/-- The whitespace characters relevant here (Go `unicode.IsSpace`
restricted to the ASCII whitespace that can occur in the inputs). -/
def goIsSpace (c : Char) : Bool :=
  c == ' ' || c == '\t' || c == '\n' || c == '\r'

/-- Model of Go `strings.Fields(s)`: the maximal runs of
non-whitespace characters. -/
def goFields (s : String) : List String :=
  ((splitPredList goIsSpace s.data).filter (fun l => l ≠ [])).map List.asString

/-- Model of Go `strings.Trim(s, "\"")`: strip leading and trailing
double-quote characters. -/
def goTrimQuotes (s : String) : String :=
  (((s.data.dropWhile (fun c => c == '"')).reverse.dropWhile
      (fun c => c == '"')).reverse).asString

/-- Model of the Go byte slice `s[1:]` for a string whose first
character is one-byte (the comparator characters `<` and `>` here). -/
def strTail (s : String) : String :=
  ⟨s.data.tail⟩

/-- Go map indexing `m[k]` on a `map[string]string`: the zero value
`""` when the key is absent. -/
def lookupD (m : List (String × String)) (k : String) : String :=
  (m.lookup k).getD ""

/-! ## The apphostingschema package

Embedding of `apphostingschema` (apphosting.yaml parsing and
validation).  Go's `*float32` / `*int32` fields become `Option ℚ` /
`Option Int`: the pointer's nil is `none`, and on the values the
validation ranges admit (all well inside int32, and float32 compares
like ℚ on the literals involved) the order comparisons agree with Go's. -/

/-- The struct `RunConfig` of apphosting.yaml. -/
structure RunConfig where
  cpu : Option ℚ
  memoryMiB : Option Int
  concurrency : Option Int
  maxInstances : Option Int
  minInstances : Option Int
  deriving Repr, DecidableEq

/-- The struct `EnvironmentVariable` of apphosting.yaml (the source's
field `Variable` is `variableName` here: `variable` is a Lean keyword). -/
structure EnvironmentVariable where
  variableName : String
  value : String
  secret : String
  availability : List String
  deriving Repr, DecidableEq

/-- The struct `AppHostingSchema`: the whole apphosting.yaml document. -/
structure AppHostingSchema where
  runConfig : RunConfig
  env : List EnvironmentVariable
  deriving Repr, DecidableEq

/-- The zero value `AppHostingSchema{}` (all pointers nil, empty env). -/
def emptyAppHostingSchema : AppHostingSchema :=
  ⟨⟨none, none, none, none, none⟩, []⟩

/-- The map `validAvailabilityValues`: membership of a tag in
`{"BUILD": true, "RUNTIME": true}`. -/
def validAvailabilityValues (s : String) : Bool :=
  s == "BUILD" || s == "RUNTIME"

/-- The Go condition `ptr != nil && !(lo <= *ptr && *ptr <= hi)` for an
`Option ℚ` field. -/
def outOfRangeQ (x : Option ℚ) (lo hi : ℚ) : Bool :=
  match x with
  | none => false
  | some v => !(decide (lo ≤ v) && decide (v ≤ hi))

/-- The Go condition `ptr != nil && !(lo <= *ptr && *ptr <= hi)` for an
`Option Int` field. -/
def outOfRangeI (x : Option Int) (lo hi : Int) : Bool :=
  match x with
  | none => false
  | some v => !(decide (lo ≤ v) && decide (v ≤ hi))

/-- Error message of the CPU range check (verbatim from the source). -/
def cpuRangeMsg : String := "runConfig.cpu field is not in valid range of [1, 8]"

/-- Error message of the memory range check (verbatim from the source). -/
def memoryRangeMsg : String := "runConfig.memory field is not in valid range of [512, 32768]"

/-- Error message of the concurrency range check (verbatim from the source). -/
def concurrencyRangeMsg : String := "runConfig.concurrency field is not in valid range of [1, 1000]"

/-- Error message of the maxInstances range check (verbatim from the source). -/
def maxInstancesRangeMsg : String := "runConfig.maxInstances field is not in valid range of [1, 100]"

/-- Error message of the minInstances range check (verbatim from the
source; note the source's message text says `[1, 100]` although the
enforced range is `[0, 100]`). -/
def minInstancesRangeMsg : String := "runConfig.minInstances field is not in valid range of [1, 100]"

/-- The validation part of `RunConfig.UnmarshalYAML`: after the plain
structural unmarshal has produced `rc`, check each present field's
range, rejecting on the first violation. -/
def validateRunConfig (rc : RunConfig) : Except String RunConfig :=
  if outOfRangeQ rc.cpu 1 8 then .error cpuRangeMsg
  else if outOfRangeI rc.memoryMiB 512 32768 then .error memoryRangeMsg
  else if outOfRangeI rc.concurrency 1 1000 then .error concurrencyRangeMsg
  else if outOfRangeI rc.maxInstances 1 100 then .error maxInstancesRangeMsg
  else if outOfRangeI rc.minInstances 0 100 then .error minInstancesRangeMsg
  else .ok rc

/-- Error message when both value and secret are set (verbatim). -/
def bothValueSecretMsg : String := "both 'value' and 'secret' fields cannot be present"

/-- Error message when neither value nor secret is set (verbatim). -/
def neitherValueSecretMsg : String := "either 'value' or 'secret' field is required"

/-- Error message for an invalid availability tag (verbatim prefix,
followed by the offending tag). -/
def invalidAvailabilityMsg (tag : String) : String :=
  "invalid value in 'availability': " ++ tag

/-- The validation part of `EnvironmentVariable.UnmarshalYAML`: after
the plain structural unmarshal has produced `ev`, apply the three
checks in source order (the availability loop rejects on the first
invalid tag). -/
def validateEnvironmentVariable (ev : EnvironmentVariable) :
    Except String EnvironmentVariable :=
  if ev.value ≠ "" ∧ ev.secret ≠ "" then .error bothValueSecretMsg
  else if ev.value = "" ∧ ev.secret = "" then .error neitherValueSecretMsg
  else
    match ev.availability.find? (fun t => !validAvailabilityValues t) with
    | some t => .error (invalidAvailabilityMsg t)
    | none => .ok ev

/-- The optional YAML fields of one `env` entry as they stand in the
document: `none` is an omitted key, `some s` an explicitly written
value.  The plain (hook-free) unmarshal into the Go struct maps an
omitted string key to the zero value `""` and an omitted list key to
the nil slice. -/
structure EnvironmentVariableYaml where
  variableKey : Option String
  valueKey : Option String
  secretKey : Option String
  availabilityKey : Option (List String)
  deriving Repr, DecidableEq

/-- The plain structural unmarshal of one `env` entry (the
`type plain EnvironmentVariable` alias step of the source's hook). -/
def decodeEnvironmentVariable (y : EnvironmentVariableYaml) : EnvironmentVariable :=
  ⟨y.variableKey.getD "", y.valueKey.getD "", y.secretKey.getD "",
    y.availabilityKey.getD []⟩

/-- `EnvironmentVariable.UnmarshalYAML` on a document entry: plain
structural unmarshal, then the validation checks. -/
def unmarshalEnvironmentVariable (y : EnvironmentVariableYaml) :
    Except String EnvironmentVariable :=
  validateEnvironmentVariable (decodeEnvironmentVariable y)

/-- Outcome of `os.ReadFile` on one path. -/
inductive ReadResult where
  | ok (content : String)
  | notExist
  | readError (msg : String)
  deriving Repr, DecidableEq

/-- The spec's error taxonomy for `load`: `IOError` for an unreadable
file, `ValidationError` for a file that read but failed to parse or
validate. -/
inductive ConfigError where
  | ioError (msg : String)
  | validationError (msg : String)
  deriving Repr, DecidableEq

/-- `ReadAndValidateAppHostingSchemaFromFile`: read the file at `path`
through the abstract filesystem `fs`; a missing file yields the zero
schema and no error, any other read failure an IOError, and an
unmarshal/validation failure (the YAML step is the parameter
`unmarshal`, covering the custom hooks above) a ValidationError. -/
def ReadAndValidateAppHostingSchemaFromFile
    (fs : String → ReadResult)
    (unmarshal : String → Except String AppHostingSchema)
    (path : String) : Except ConfigError AppHostingSchema :=
  match fs path with
  | .notExist => .ok emptyAppHostingSchema
  | .readError e =>
      .error (.ioError ("reading apphosting config at " ++ path ++ ": " ++ e))
  | .ok buf =>
      match unmarshal buf with
      | .error e =>
          .error (.validationError ("unmarshalling apphosting config as YAML: " ++ e))
      | .ok a => .ok a

/-! ## pkg/nodejs/nextjs.go

Embedding of `detectNextjsAdaptorVersion` and `Version`.  The two
Masterminds semver library calls (`semver.StrictNewVersion`,
`semver.NewConstraint`) and the two lockfile decoders
(`yaml.Unmarshal`, `json.Unmarshal`) are external libraries and enter
the model as parameters: a strict parse yields the parsed version's
numeric components, a successful constraint parse yields the
constraint's string form `constraint.String()`, and a lockfile parse
yields the decoded struct; `none` is a parse error. -/

/-- The numeric and textual components of a parsed concrete semantic
version (what `semver.StrictNewVersion` returns on success). -/
structure GoSemver where
  major : Nat
  minor : Nat
  patch : Nat
  prerelease : String
  metadata : String
  deriving Repr, DecidableEq

/-- The first comparator rewrite of the constraint loop: `<` (but not
`<=`) becomes `<=` when the last component `p` does not start with
`0`. -/
def rewriteLess (a p : String) : String :=
  if goStartsWith a "<" && !goStartsWith a "<=" && !goStartsWith p "0"
  then "<=" ++ strTail a else a

/-- The second comparator rewrite of the constraint loop, applied to
the possibly already rewritten first component: `>` (but not `>=`)
becomes `>=` unconditionally. -/
def rewriteGreater (a : String) : String :=
  if goStartsWith a ">" && !goStartsWith a ">=" then ">=" ++ strTail a else a

/-- The body of the constraint loop of `detectNextjsAdaptorVersion` for
one space-separated clause: split on `.`; on exactly three components
apply the two sequential comparator rewrites to the first component
and drop the last component; re-join with `.`. -/
def rewriteClause (c : String) : String :=
  match goSplitChar '.' c with
  | [a, b, p] => goJoinChar '.' [rewriteGreater (rewriteLess a p), b]
  | vs => goJoinChar '.' vs

/-- The constraint loop of `detectNextjsAdaptorVersion`: rewrite every
space-separated clause of the parsed constraint's string form and
re-join the results with single spaces. -/
def rewriteConstraints (s : String) : String :=
  goJoinChar ' ' ((goSplitChar ' ' s).map rewriteClause)

/-- `detectNextjsAdaptorVersion`: a concrete version yields
`"<major>.<minor>"`; otherwise a parseable constraint is rewritten
clause by clause; otherwise the literal `"latest"`. -/
def detectNextjsAdaptorVersion
    (strictNewVersion : String → Option GoSemver)
    (newConstraint : String → Option String)
    (njsVersion : String) : String :=
  match strictNewVersion njsVersion with
  | some v => Nat.repr v.major ++ "." ++ Nat.repr v.minor
  | none =>
    match newConstraint njsVersion with
    | none => "latest"
    | some cs => rewriteConstraints cs

/-- The struct `PnpmLockfile`: the `dependencies` mapping, each value's
`version` field. -/
structure PnpmLockfile where
  dependencies : List (String × String)
  deriving Repr, DecidableEq

/-- The struct `NpmLockfile`: the `packages` mapping, each value's
`version` field. -/
structure NpmLockfile where
  packages : List (String × String)
  deriving Repr, DecidableEq

/-- The two lockfile decoders `Version` calls: `yaml.Unmarshal` into a
`PnpmLockfile` and `json.Unmarshal` into an `NpmLockfile`; `none` is a
decode error. -/
structure LockfileParsers where
  pnpm : String → Option PnpmLockfile
  npm : String → Option NpmLockfile

/-- `possibleLockfileFilenames` (verbatim order from the source). -/
def possibleLockfileFilenames : List String :=
  ["pnpm-lock.yaml", "yarn.lock", "npm-shrinkwrap.json", "package-lock.json"]

/-- Outcome of the yarn block scan: a returned version string, a Go
panic (`strings.Fields(line)[1]` on a line with fewer than two
fields), or no matching block. -/
inductive YarnOutcome where
  | found (v : String)
  | panicked
  | missed
  deriving Repr, DecidableEq

/-- The inner line loop over one matched yarn block: the first line
containing `"version"` yields its second whitespace-separated field
with surrounding quotes trimmed; indexing `[1]` on a line with a
single field is a panic; a block without such a line yields nothing
and the outer block loop continues. -/
def yarnBlockVersion (block : String) : Option YarnOutcome :=
  match (goSplitChar '\n' block).find? (fun line => goContains line "version") with
  | none => none
  | some line =>
    match goFields line with
    | _ :: v :: _ => some (.found (goTrimQuotes v))
    | _ => some .panicked

/-- The outer block loop of the yarn branch of `Version`: scan the
blank-line-delimited blocks in order for one containing both
`"next@"` and the declared specifier `spec`, and extract a version
from the first matched block that has a `"version"` line. -/
def yarnScan (spec : String) : List String → YarnOutcome
  | [] => .missed
  | b :: rest =>
    if goContains b "next@" && goContains b spec then
      match yarnBlockVersion b with
      | some r => r
      | none => yarnScan spec rest
    else yarnScan spec rest

/-- One iteration of `Version`'s loop after `os.ReadFile` succeeded on
`filename` with contents `raw`: either return a value, panic (yarn
branch only), or fall through to the next candidate filename. -/
def versionTryFile (parsers : LockfileParsers)
    (pjsDependencies : List (String × String))
    (filename raw : String) : YarnOutcome :=
  if filename = "pnpm-lock.yaml" then
    match parsers.pnpm raw with
    | some lockfile =>
        .found (((goSplitChar '(' (lookupD lockfile.dependencies "next")).headD ""))
    | none => .missed
  else if filename = "yarn.lock" then
    yarnScan (lookupD pjsDependencies "next") (goSplitBlocks raw)
  else if filename = "npm-shrinkwrap.json" ∨ filename = "package-lock.json" then
    match parsers.npm raw with
    | some lockfile => .found (lookupD lockfile.packages "node_modules/next")
    | none => .missed
  else .missed

/-- The loop of `Version` over the candidate filenames: a file that
does not read falls through; a file that reads is handed to
`versionTryFile`; after the loop, fall back to the manifest's
declared specifier.  `none` is a Go panic. -/
def versionLoop (fs : String → Option String) (parsers : LockfileParsers)
    (pjsDependencies : List (String × String)) : List String → Option String
  | [] => some (lookupD pjsDependencies "next")
  | f :: rest =>
    match fs f with
    | none => versionLoop fs parsers pjsDependencies rest
    | some raw =>
      match versionTryFile parsers pjsDependencies f raw with
      | .found v => some v
      | .panicked => none
      | .missed => versionLoop fs parsers pjsDependencies rest

/-- `Version`: resolve the installed next version from the lockfiles at
the application root (the abstract filesystem `fs`: `none` is a read
error, in particular a missing file), falling back to the manifest's
`dependencies["next"]`.  The result `none` models a Go panic. -/
def Version (fs : String → Option String) (parsers : LockfileParsers)
    (pjsDependencies : List (String × String)) : Option String :=
  versionLoop fs parsers pjsDependencies possibleLockfileFilenames

/-! ## Helper predicates and lemmas for the validation theorems -/

/-- The present value of an `Option ℚ` field, when any, lies in `[lo, hi]`. -/
def inRangeQOpt (x : Option ℚ) (lo hi : ℚ) : Prop :=
  ∀ v, x = some v → lo ≤ v ∧ v ≤ hi

/-- The present value of an `Option Int` field, when any, lies in `[lo, hi]`. -/
def inRangeIOpt (x : Option Int) (lo hi : Int) : Prop :=
  ∀ v, x = some v → lo ≤ v ∧ v ≤ hi

/-- Every present numeric field of `rc` lies in its documented range. -/
def runConfigInRange (rc : RunConfig) : Prop :=
  inRangeQOpt rc.cpu 1 8 ∧ inRangeIOpt rc.memoryMiB 512 32768 ∧
  inRangeIOpt rc.concurrency 1 1000 ∧ inRangeIOpt rc.maxInstances 1 100 ∧
  inRangeIOpt rc.minInstances 0 100

/-- `p` is a canonical patch component: a non-empty decimal numeral
`num` with no leading zero (other than `"0"` itself), followed by a
suffix that does not start with a digit (a pre-release such as
`"-beta"`, or nothing). -/
def canonicalPatch (num suffix p : String) : Prop :=
  p = num ++ suffix ∧ num ≠ "" ∧ num.data.all Char.isDigit = true ∧
  (num = "0" ∨ num.data.head? ≠ some '0') ∧
  (suffix.data.head?.elim true fun ch => !ch.isDigit) = true

/-- Modelled from the claim: the yarn block scan with the second
containment test dropped, selecting the first block that contains
`"next@"` alone. -/
def yarnScanFirstNext : List String → YarnOutcome
  | [] => .missed
  | b :: rest =>
    if goContains b "next@" then
      match yarnBlockVersion b with
      | some r => r
      | none => yarnScanFirstNext rest
    else yarnScanFirstNext rest

/-- The pnpm candidate yields no result: the file is missing (or
unreadable) or its yaml decode fails. -/
def noStopPnpm (fs : String → Option String) (parsers : LockfileParsers) : Prop :=
  fs "pnpm-lock.yaml" = none ∨
  ∃ raw, fs "pnpm-lock.yaml" = some raw ∧ parsers.pnpm raw = none

/-- The yarn candidate yields no result: the file is missing (or
unreadable) or no block both matches and has a version line. -/
def noStopYarn (fs : String → Option String) (deps : List (String × String)) : Prop :=
  fs "yarn.lock" = none ∨
  ∃ raw, fs "yarn.lock" = some raw ∧
    yarnScan (lookupD deps "next") (goSplitBlocks raw) = .missed

/-- An npm-format candidate `f` yields no result: the file is missing
(or unreadable) or its json decode fails. -/
def noStopNpm (fs : String → Option String) (parsers : LockfileParsers)
    (f : String) : Prop :=
  fs f = none ∨ ∃ raw, fs f = some raw ∧ parsers.npm raw = none

/-! ### Facts about the string models -/

theorem data_asString (l : List Char) : (List.asString l).data = l := rfl

theorem splitPredList_ne_nil (p : Char → Bool) (xs : List Char) :
    splitPredList p xs ≠ [] := by
  induction xs with
  | nil => simp [splitPredList]
  | cons x rest ih =>
    simp only [splitPredList]
    split
    · simp
    · match h : splitPredList p rest with
      | hd :: tl => simp
      | [] => exact absurd h ih

theorem joinSepList_splitPredList (c : Char) (xs : List Char) :
    joinSepList c (splitPredList (fun x => x == c) xs) = xs := by
  induction xs with
  | nil => simp [splitPredList, joinSepList]
  | cons x rest ih =>
    simp only [splitPredList]
    by_cases hx : x = c
    · rw [if_pos (by simp [hx])]
      match h : splitPredList (fun x => x == c) rest with
      | [] => exact absurd h (splitPredList_ne_nil _ _)
      | hd :: tl =>
        rw [h] at ih
        simp [joinSepList, hx, ih]
    · rw [if_neg (by simp [hx])]
      match h : splitPredList (fun x => x == c) rest with
      | [] => exact absurd h (splitPredList_ne_nil _ _)
      | hd :: tl =>
        rw [h] at ih
        match tl with
        | [] => simpa [joinSepList] using ih
        | t :: ts => simpa [joinSepList] using ih

theorem goJoinChar_goSplitChar (c : Char) (s : String) :
    goJoinChar c (goSplitChar c s) = s := by
  have hmap : (goSplitChar c s).map String.data
      = splitPredList (fun x => x == c) s.data := by
    simp [goSplitChar, List.map_map, Function.comp_def, data_asString]
  apply String.ext
  simp [goJoinChar, hmap, joinSepList_splitPredList, data_asString]

theorem goContains_empty (s : String) : goContains s "" = true := by
  show containsSubList "".data s.data = true
  induction s.data with
  | nil => rfl
  | cons x rest ih => simp [containsSubList, List.isPrefixOf] at ih ⊢

theorem asString_data (s : String) : List.asString s.data = s := rfl

theorem splitPredList_append_sep (p : Char → Bool) (base rest : List Char)
    (c : Char) (hb : ∀ x ∈ base, p x = false) (hc : p c = true) :
    ∃ tl, splitPredList p (base ++ c :: rest) = base :: tl := by
  revert hb
  induction base with
  | nil =>
    intro hb
    exact ⟨splitPredList p rest, by simp [splitPredList, hc]⟩
  | cons x xs ih =>
    intro hb
    obtain ⟨tl, htl⟩ := ih (fun y hy => hb y (List.mem_cons_of_mem _ hy))
    refine ⟨tl, ?_⟩
    have hx : p x = false := hb x (List.mem_cons_self x xs)
    simp only [List.cons_append, splitPredList]
    rw [if_neg (by simp [hx])]
    simp only [List.append_eq]
    rw [htl]

theorem outOfRangeQ_eq_false {x : Option ℚ} {lo hi : ℚ} :
    outOfRangeQ x lo hi = false ↔ inRangeQOpt x lo hi := by
  cases x with
  | none => simp [outOfRangeQ, inRangeQOpt]
  | some v => simp [outOfRangeQ, inRangeQOpt]

theorem outOfRangeI_eq_false {x : Option Int} {lo hi : Int} :
    outOfRangeI x lo hi = false ↔ inRangeIOpt x lo hi := by
  cases x with
  | none => simp [outOfRangeI, inRangeIOpt]
  | some v => simp [outOfRangeI, inRangeIOpt]

theorem outOfRangeQ_eq_true {v lo hi : ℚ} (h : ¬(lo ≤ v ∧ v ≤ hi)) :
    outOfRangeQ (some v) lo hi = true := by
  simp only [not_and_or] at h
  simp only [outOfRangeQ, Bool.not_eq_true', Bool.and_eq_false_iff,
    decide_eq_false_iff_not]
  tauto

theorem outOfRangeI_eq_true {v lo hi : Int} (h : ¬(lo ≤ v ∧ v ≤ hi)) :
    outOfRangeI (some v) lo hi = true := by
  simp only [not_and_or] at h
  simp only [outOfRangeI, Bool.not_eq_true', Bool.and_eq_false_iff,
    decide_eq_false_iff_not]
  tauto

/-! ## Theorems for the claims -/

/-- C2: for every path whose file does not exist,
`ReadAndValidateAppHostingSchemaFromFile` returns the empty,
fully-defaulted document and no error; for every read failure other
than non-existence it fails with an IOError. -/
theorem C2_missing_file_defaults (fs : String → ReadResult)
    (unmarshal : String → Except String AppHostingSchema) (path : String) :
    (fs path = .notExist →
      ReadAndValidateAppHostingSchemaFromFile fs unmarshal path =
        .ok emptyAppHostingSchema) ∧
    (∀ e, fs path = .readError e →
      ReadAndValidateAppHostingSchemaFromFile fs unmarshal path =
        .error (.ioError ("reading apphosting config at " ++ path ++ ": " ++ e))) := by
  constructor
  · intro h
    simp [ReadAndValidateAppHostingSchemaFromFile, h]
  · intro e h
    simp [ReadAndValidateAppHostingSchemaFromFile, h]

/-- Witness for C2 at a concrete missing path and a concrete failing read. -/
theorem C2_witness :
    ReadAndValidateAppHostingSchemaFromFile (fun _ => .notExist)
      (fun _ => .ok emptyAppHostingSchema) "/nonexistent/path" =
      .ok emptyAppHostingSchema ∧
    ReadAndValidateAppHostingSchemaFromFile (fun _ => .readError "permission denied")
      (fun _ => .ok emptyAppHostingSchema) "/workspace/apphosting.yaml" =
      .error (.ioError
        "reading apphosting config at /workspace/apphosting.yaml: permission denied") := by
  constructor
  · exact (C2_missing_file_defaults _ _ _).1 rfl
  · exact (C2_missing_file_defaults _ _ _).2 "permission denied" rfl

/-- C3: a document whose present numeric fields all lie in their ranges
validates to itself; a document with exactly one present field outside
its range (the other fields absent or in range) is rejected with the
error message naming that field. -/
theorem C3_run_config_validation (rc : RunConfig) :
    (runConfigInRange rc → validateRunConfig rc = .ok rc) ∧
    (∀ c, rc.cpu = some c → ¬(1 ≤ c ∧ c ≤ 8) →
      validateRunConfig rc = .error cpuRangeMsg ∧
      goContains cpuRangeMsg "runConfig.cpu" = true) ∧
    (∀ m, rc.memoryMiB = some m → ¬(512 ≤ m ∧ m ≤ 32768) →
      inRangeQOpt rc.cpu 1 8 →
      validateRunConfig rc = .error memoryRangeMsg ∧
      goContains memoryRangeMsg "runConfig.memory" = true) ∧
    (∀ n, rc.concurrency = some n → ¬(1 ≤ n ∧ n ≤ 1000) →
      inRangeQOpt rc.cpu 1 8 → inRangeIOpt rc.memoryMiB 512 32768 →
      validateRunConfig rc = .error concurrencyRangeMsg ∧
      goContains concurrencyRangeMsg "runConfig.concurrency" = true) ∧
    (∀ n, rc.maxInstances = some n → ¬(1 ≤ n ∧ n ≤ 100) →
      inRangeQOpt rc.cpu 1 8 → inRangeIOpt rc.memoryMiB 512 32768 →
      inRangeIOpt rc.concurrency 1 1000 →
      validateRunConfig rc = .error maxInstancesRangeMsg ∧
      goContains maxInstancesRangeMsg "runConfig.maxInstances" = true) ∧
    (∀ n, rc.minInstances = some n → ¬(0 ≤ n ∧ n ≤ 100) →
      inRangeQOpt rc.cpu 1 8 → inRangeIOpt rc.memoryMiB 512 32768 →
      inRangeIOpt rc.concurrency 1 1000 → inRangeIOpt rc.maxInstances 1 100 →
      validateRunConfig rc = .error minInstancesRangeMsg ∧
      goContains minInstancesRangeMsg "runConfig.minInstances" = true) := by
  refine ⟨?_, ?_, ?_, ?_, ?_, ?_⟩
  · rintro ⟨h1, h2, h3, h4, h5⟩
    rw [validateRunConfig,
      if_neg (by rw [outOfRangeQ_eq_false.2 h1]; simp),
      if_neg (by rw [outOfRangeI_eq_false.2 h2]; simp),
      if_neg (by rw [outOfRangeI_eq_false.2 h3]; simp),
      if_neg (by rw [outOfRangeI_eq_false.2 h4]; simp),
      if_neg (by rw [outOfRangeI_eq_false.2 h5]; simp)]
  · intro c hc hout
    refine ⟨?_, by decide⟩
    rw [validateRunConfig, hc, if_pos (outOfRangeQ_eq_true hout)]
  · intro m hm hout h1
    refine ⟨?_, by decide⟩
    rw [validateRunConfig,
      if_neg (by rw [outOfRangeQ_eq_false.2 h1]; simp), hm,
      if_pos (outOfRangeI_eq_true hout)]
  · intro n hn hout h1 h2
    refine ⟨?_, by decide⟩
    rw [validateRunConfig,
      if_neg (by rw [outOfRangeQ_eq_false.2 h1]; simp),
      if_neg (by rw [outOfRangeI_eq_false.2 h2]; simp), hn,
      if_pos (outOfRangeI_eq_true hout)]
  · intro n hn hout h1 h2 h3
    refine ⟨?_, by decide⟩
    rw [validateRunConfig,
      if_neg (by rw [outOfRangeQ_eq_false.2 h1]; simp),
      if_neg (by rw [outOfRangeI_eq_false.2 h2]; simp),
      if_neg (by rw [outOfRangeI_eq_false.2 h3]; simp), hn,
      if_pos (outOfRangeI_eq_true hout)]
  · intro n hn hout h1 h2 h3 h4
    refine ⟨?_, by decide⟩
    rw [validateRunConfig,
      if_neg (by rw [outOfRangeQ_eq_false.2 h1]; simp),
      if_neg (by rw [outOfRangeI_eq_false.2 h2]; simp),
      if_neg (by rw [outOfRangeI_eq_false.2 h3]; simp),
      if_neg (by rw [outOfRangeI_eq_false.2 h4]; simp), hn,
      if_pos (outOfRangeI_eq_true hout)]

/-- Witness for C3: a fully in-range document validates to itself; CPU 9
is rejected naming the CPU field; minInstances -1 is rejected naming the
minInstances field (minInstances 0 is accepted in the first document). -/
theorem C3_witness :
    validateRunConfig ⟨some 2, some 1024, some 80, some 3, some 0⟩ =
      .ok ⟨some 2, some 1024, some 80, some 3, some 0⟩ ∧
    validateRunConfig ⟨some 9, none, none, none, none⟩ = .error cpuRangeMsg ∧
    validateRunConfig ⟨none, none, none, none, some (-1)⟩ =
      .error minInstancesRangeMsg := by
  refine ⟨(C3_run_config_validation _).1 ?_,
    ((C3_run_config_validation _).2.1 9 rfl (by norm_num)).1,
    ((C3_run_config_validation _).2.2.2.2.2 (-1) rfl (by norm_num)
      ?_ ?_ ?_ ?_).1⟩
  · refine ⟨?_, ?_, ?_, ?_, ?_⟩ <;>
      · intro v hv
        cases hv
        norm_num
  all_goals intro v hv; cases hv

/-- C4: an env entry with both value and secret set is rejected, one
with neither set is rejected, one with any availability tag outside
BUILD and RUNTIME is rejected, and one with exactly one of value and
secret set and only valid tags (possibly none) is accepted. -/
theorem C4_env_var_validation (ev : EnvironmentVariable) :
    (ev.value ≠ "" → ev.secret ≠ "" →
      validateEnvironmentVariable ev = .error bothValueSecretMsg) ∧
    (ev.value = "" → ev.secret = "" →
      validateEnvironmentVariable ev = .error neitherValueSecretMsg) ∧
    ((∃ t ∈ ev.availability, validAvailabilityValues t = false) →
      ∃ m, validateEnvironmentVariable ev = .error m) ∧
    (((ev.value ≠ "" ∧ ev.secret = "") ∨ (ev.value = "" ∧ ev.secret ≠ "")) →
      (∀ t ∈ ev.availability, validAvailabilityValues t = true) →
      validateEnvironmentVariable ev = .ok ev) := by
  refine ⟨?_, ?_, ?_, ?_⟩
  · intro h1 h2
    rw [validateEnvironmentVariable, if_pos ⟨h1, h2⟩]
  · intro h1 h2
    rw [validateEnvironmentVariable, if_neg (by tauto), if_pos ⟨h1, h2⟩]
  · intro ⟨t, ht, hv⟩
    rw [validateEnvironmentVariable]
    split
    · exact ⟨_, rfl⟩
    · split
      · exact ⟨_, rfl⟩
      · have : (ev.availability.find? (fun t => !validAvailabilityValues t)).isSome := by
          rw [List.find?_isSome]
          exact ⟨t, ht, by simp [hv]⟩
        match hfind : ev.availability.find? (fun t => !validAvailabilityValues t) with
        | some u => exact ⟨_, rfl⟩
        | none => rw [hfind] at this; simp at this
  · intro h1 h2
    have hfind : ev.availability.find? (fun t => !validAvailabilityValues t) = none := by
      rw [List.find?_eq_none]
      intro t ht
      simp [h2 t ht]
    rw [validateEnvironmentVariable, if_neg (by tauto), if_neg (by tauto), hfind]

/-- Witness for C4 at concrete entries: both set fails, neither set
fails, one set with availability BUILD succeeds, STAGING fails. -/
theorem C4_witness :
    validateEnvironmentVariable ⟨"A", "x", "y", []⟩ = .error bothValueSecretMsg ∧
    validateEnvironmentVariable ⟨"B", "", "", []⟩ = .error neitherValueSecretMsg ∧
    (∃ m, validateEnvironmentVariable ⟨"C", "x", "", ["STAGING"]⟩ = .error m) ∧
    validateEnvironmentVariable ⟨"D", "x", "", ["BUILD"]⟩ =
      .ok ⟨"D", "x", "", ["BUILD"]⟩ := by
  refine ⟨(C4_env_var_validation _).1 (by decide) (by decide),
    (C4_env_var_validation _).2.1 rfl rfl,
    (C4_env_var_validation _).2.2.1 ⟨"STAGING", by simp, by decide⟩,
    (C4_env_var_validation _).2.2.2 (Or.inl ⟨by decide, rfl⟩) ?_⟩
  intro t ht
  simp at ht
  simp [ht]
  rfl

/-- C10: presence of value and secret is judged by string
non-emptiness, not by key presence: an entry explicitly written with
an empty value and no secret is rejected exactly like one omitting the
value key, and an entry with an empty value and a non-empty secret is
accepted. -/
theorem C10_emptiness_not_presence (varKey : Option String)
    (avail : Option (List String)) :
    unmarshalEnvironmentVariable ⟨varKey, some "", none, avail⟩ =
      .error neitherValueSecretMsg ∧
    unmarshalEnvironmentVariable ⟨varKey, some "", none, avail⟩ =
      unmarshalEnvironmentVariable ⟨varKey, none, none, avail⟩ ∧
    (∀ s, s ≠ "" → (∀ t ∈ avail.getD [], validAvailabilityValues t = true) →
      unmarshalEnvironmentVariable ⟨varKey, some "", some s, avail⟩ =
        .ok ⟨varKey.getD "", "", s, avail.getD []⟩) := by
  refine ⟨?_, rfl, ?_⟩
  · rw [unmarshalEnvironmentVariable, decodeEnvironmentVariable]
    rw [validateEnvironmentVariable, if_neg (by simp), if_pos (by simp)]
  · intro s hs hav
    have hfind : (avail.getD []).find? (fun t => !validAvailabilityValues t) = none := by
      rw [List.find?_eq_none]
      intro t ht
      simp [hav t ht]
    rw [unmarshalEnvironmentVariable, decodeEnvironmentVariable]
    rw [validateEnvironmentVariable, if_neg (by simp), if_neg (by simp [hs])]
    simp only [Option.getD_some, Option.getD_none]
    rw [hfind]

/-- Witness for C10: an explicit empty value with no secret is rejected
like an omitted value, and an explicit empty value with a real secret
is accepted. -/
theorem C10_witness :
    unmarshalEnvironmentVariable ⟨some "K", some "", none, none⟩ =
      .error neitherValueSecretMsg ∧
    unmarshalEnvironmentVariable ⟨some "K", some "", some "my-secret", some ["BUILD"]⟩ =
      .ok ⟨"K", "", "my-secret", ["BUILD"]⟩ := by
  refine ⟨(C10_emptiness_not_presence (some "K") none).1,
    (C10_emptiness_not_presence (some "K") (some ["BUILD"])).2.2 "my-secret"
      (by decide) ?_⟩
  intro t ht
  simp at ht
  simp [ht]
  rfl

/-! ## Helper lemmas for the clause-rewriting theorems -/

theorem goStartsWith_char {s : String} {x : Char} {rest : List Char}
    (h : s.data = x :: rest) (c : Char) (p : String) (hp : p.data = [c]) :
    goStartsWith s p = (c == x) := by
  rw [goStartsWith, hp, h]
  show ((c == x) && List.isPrefixOf [] rest) = (c == x)
  simp [List.isPrefixOf]

theorem data_of_goStartsWith_char {s : String} {c : Char} {p : String}
    (hp : p.data = [c]) (h : goStartsWith s p = true) :
    ∃ rest, s.data = c :: rest := by
  rw [goStartsWith, hp] at h
  match hd : s.data with
  | [] => rw [hd] at h; simp [List.isPrefixOf] at h
  | x :: rest =>
    rw [hd] at h
    replace h : ((c == x) && List.isPrefixOf [] rest) = true := h
    simp [List.isPrefixOf] at h
    exact ⟨rest, by rw [h]⟩

theorem canonicalPatch_zero_iff {num suffix p : String}
    (h : canonicalPatch num suffix p) :
    (goStartsWith p "0" = true ↔ num = "0") := by
  obtain ⟨hps, hne, _, hhead, _⟩ := h
  match hnd : num.data with
  | [] =>
    exact absurd (String.ext (hnd.trans rfl)) hne
  | d :: ds =>
    have hp : p.data = d :: (ds ++ suffix.data) := by
      rw [hps, String.data_append, hnd]
      rfl
    rw [goStartsWith_char hp '0' "0" rfl]
    constructor
    · intro hd
      simp only [beq_iff_eq] at hd
      rcases hhead with h0 | h0
      · exact h0
      · exact absurd (by rw [hnd, ← hd]; rfl) h0
    · intro h0
      rw [h0] at hnd
      have h00 : ('0' :: ([] : List Char)) = d :: ds := hnd
      have hd0 : ('0' : Char) = d := by injection h00
      simp [← hd0]

theorem goJoinChar_dot (x y : String) : goJoinChar '.' [x, y] = x ++ "." ++ y := by
  apply String.ext
  simp only [goJoinChar, List.map_cons, List.map_nil, joinSepList, data_asString,
    String.data_append]
  rw [List.append_assoc]
  rfl

/-! ## Theorems for the version-resolution claims -/

/-- C5: a specifier that strictly parses as a concrete semantic version
normalizes to `"<major>.<minor>"`, dropping patch, pre-release and
build metadata; one that parses neither strictly nor as a constraint
normalizes to the literal `"latest"`. -/
theorem C5_adaptor_version_normalization
    (strictNewVersion : String → Option GoSemver)
    (newConstraint : String → Option String) (s : String) :
    (∀ v, strictNewVersion s = some v →
      detectNextjsAdaptorVersion strictNewVersion newConstraint s =
        Nat.repr v.major ++ "." ++ Nat.repr v.minor) ∧
    (strictNewVersion s = none → newConstraint s = none →
      detectNextjsAdaptorVersion strictNewVersion newConstraint s = "latest") := by
  constructor
  · intro v hv
    simp [detectNextjsAdaptorVersion, hv]
  · intro h1 h2
    simp [detectNextjsAdaptorVersion, h1, h2]

/-- Witness for C5: with a strict parser recognising exactly `"14.2.3"`
(as major 14, minor 2, patch 3) and a constraint parser accepting
nothing, `"14.2.3"` normalizes to `"14.2"` and `"not-a-version"` to
`"latest"`. -/
theorem C5_witness :
    detectNextjsAdaptorVersion
      (fun s => if s = "14.2.3" then some ⟨14, 2, 3, "", ""⟩ else none)
      (fun _ => none) "14.2.3" = "14.2" ∧
    detectNextjsAdaptorVersion
      (fun s => if s = "14.2.3" then some ⟨14, 2, 3, "", ""⟩ else none)
      (fun _ => none) "not-a-version" = "latest" := by
  constructor
  · have h := (C5_adaptor_version_normalization
      (fun s => if s = "14.2.3" then some ⟨14, 2, 3, "", ""⟩ else none)
      (fun _ => none) "14.2.3").1 ⟨14, 2, 3, "", ""⟩ (by simp)
    exact h.trans (by decide)
  · exact (C5_adaptor_version_normalization _ _ "not-a-version").2
      (by simp) rfl

/-- C6: on a clause with exactly three dot-separated components whose
patch component is a canonical numeral (optionally with a pre-release
suffix), a strict `<` is rewritten to `<=` exactly when the patch is
nonzero, a strict `>` is rewritten to `>=` unconditionally, and the
patch component is dropped in every three-component clause; clauses
with fewer components pass through unchanged; the clauses are
re-joined with single spaces; `"<14.0.15"` maps to `"<=14.0"` and
`">13.0.2"` to `">=13.0"`. -/
theorem C6_constraint_clause_rewrite :
    (∀ c a b p num suffix, goSplitChar '.' c = [a, b, p] →
      canonicalPatch num suffix p →
      goStartsWith a "<" = true → goStartsWith a "<=" = false →
      ((num ≠ "0" → rewriteClause c = ("<=" ++ strTail a) ++ "." ++ b) ∧
       (num = "0" → rewriteClause c = a ++ "." ++ b))) ∧
    (∀ c a b p, goSplitChar '.' c = [a, b, p] →
      goStartsWith a ">" = true → goStartsWith a ">=" = false →
      rewriteClause c = (">=" ++ strTail a) ++ "." ++ b) ∧
    (∀ c a b p, goSplitChar '.' c = [a, b, p] →
      ∃ a2, rewriteClause c = a2 ++ "." ++ b) ∧
    (∀ c, (goSplitChar '.' c).length < 3 → rewriteClause c = c) ∧
    (∀ s, rewriteConstraints s =
      goJoinChar ' ' ((goSplitChar ' ' s).map rewriteClause)) ∧
    (rewriteConstraints "<14.0.15" = "<=14.0" ∧
     rewriteConstraints ">13.0.2" = ">=13.0") := by
  refine ⟨?_, ?_, ?_, ?_, fun s => rfl, by decide, by decide⟩
  · intro c a b p num suffix hsplit hcanon ha ha2
    have hp0 := canonicalPatch_zero_iff hcanon
    obtain ⟨resta, hdataa⟩ := data_of_goStartsWith_char rfl ha
    constructor
    · intro hnum
      have hp0f : goStartsWith p "0" = false := by
        cases hfin : goStartsWith p "0" with
        | false => rfl
        | true => exact absurd (hp0.1 hfin) hnum
      have h1 : rewriteLess a p = "<=" ++ strTail a := by
        rw [rewriteLess, if_pos (by rw [ha, ha2, hp0f]; rfl)]
      have h2 : rewriteGreater ("<=" ++ strTail a) = "<=" ++ strTail a := by
        have hd : ("<=" ++ strTail a).data = '<' :: '=' :: (strTail a).data := by
          rw [String.data_append]
          rfl
        have hsnd : goStartsWith ("<=" ++ strTail a) ">" = false := by
          rw [goStartsWith_char hd '>' ">" rfl]
          decide
        rw [rewriteGreater, if_neg (by rw [hsnd]; simp)]
      simp only [rewriteClause, hsplit, h1, h2]
      exact goJoinChar_dot _ _
    · intro hnum
      have hp0t : goStartsWith p "0" = true := hp0.2 hnum
      have h1 : rewriteLess a p = a := by
        rw [rewriteLess, if_neg (by rw [hp0t]; simp)]
      have h2 : rewriteGreater a = a := by
        have hsnd : goStartsWith a ">" = false := by
          rw [goStartsWith_char hdataa '>' ">" rfl]
          decide
        rw [rewriteGreater, if_neg (by rw [hsnd]; simp)]
      simp only [rewriteClause, hsplit, h1, h2]
      exact goJoinChar_dot _ _
  · intro c a b p hsplit ha ha2
    obtain ⟨resta, hdataa⟩ := data_of_goStartsWith_char rfl ha
    have h1 : rewriteLess a p = a := by
      have hlt : goStartsWith a "<" = false := by
        rw [goStartsWith_char hdataa '<' "<" rfl]
        decide
      rw [rewriteLess, if_neg (by rw [hlt]; simp)]
    have h2 : rewriteGreater a = ">=" ++ strTail a := by
      rw [rewriteGreater, if_pos (by rw [ha, ha2]; rfl)]
    simp only [rewriteClause, hsplit, h1, h2]
    exact goJoinChar_dot _ _
  · intro c a b p hsplit
    simp only [rewriteClause, hsplit]
    exact ⟨_, goJoinChar_dot _ _⟩
  · intro c hlen
    have hr := goJoinChar_goSplitChar '.' c
    rcases hs : goSplitChar '.' c with _ | ⟨a, _ | ⟨b, _ | ⟨p, rest⟩⟩⟩
    · rw [hs] at hr
      simp only [rewriteClause, hs]
      exact hr
    · rw [hs] at hr
      simp only [rewriteClause, hs]
      exact hr
    · rw [hs] at hr
      simp only [rewriteClause, hs]
      exact hr
    · rw [hs] at hlen
      simp at hlen
      omega

/-- Witness for C6 at the spec's own examples, applied clause-wise:
`"<14.0.15"` (patch 15, nonzero) rewrites to `"<=14.0"` and
`">13.0.2"` to `">=13.0"`. -/
theorem C6_witness :
    rewriteClause "<14.0.15" = "<=14.0" ∧ rewriteClause ">13.0.2" = ">=13.0" := by
  constructor
  · have h := ((C6_constraint_clause_rewrite).1 "<14.0.15" "<14" "0" "15" "15" ""
      (by decide)
      ⟨by decide, by decide, by decide, Or.inr (by decide), by decide⟩
      (by decide) (by decide)).1 (by decide)
    exact h.trans (by decide)
  · have h := (C6_constraint_clause_rewrite).2.1 ">13.0.2" ">13" "0" "2"
      (by decide) (by decide) (by decide)
    exact h.trans (by decide)

/-! ## Helper lemmas for the `Version` theorems -/

theorem versionTryFile_pnpm (parsers : LockfileParsers)
    (deps : List (String × String)) (raw : String) :
    versionTryFile parsers deps "pnpm-lock.yaml" raw =
      (match parsers.pnpm raw with
       | some lockfile =>
          .found ((goSplitChar '(' (lookupD lockfile.dependencies "next")).headD "")
       | none => .missed) := by
  rw [versionTryFile, if_pos rfl]

theorem versionTryFile_yarn (parsers : LockfileParsers)
    (deps : List (String × String)) (raw : String) :
    versionTryFile parsers deps "yarn.lock" raw =
      yarnScan (lookupD deps "next") (goSplitBlocks raw) := by
  rw [versionTryFile, if_neg (by decide), if_pos rfl]

theorem versionTryFile_shrinkwrap (parsers : LockfileParsers)
    (deps : List (String × String)) (raw : String) :
    versionTryFile parsers deps "npm-shrinkwrap.json" raw =
      (match parsers.npm raw with
       | some lockfile => .found (lookupD lockfile.packages "node_modules/next")
       | none => .missed) := by
  rw [versionTryFile, if_neg (by decide), if_neg (by decide),
    if_pos (Or.inl rfl)]

theorem versionTryFile_packagelock (parsers : LockfileParsers)
    (deps : List (String × String)) (raw : String) :
    versionTryFile parsers deps "package-lock.json" raw =
      (match parsers.npm raw with
       | some lockfile => .found (lookupD lockfile.packages "node_modules/next")
       | none => .missed) := by
  rw [versionTryFile, if_neg (by decide), if_neg (by decide),
    if_pos (Or.inr rfl)]

theorem versionLoop_head_none (fs : String → Option String)
    (parsers : LockfileParsers) (deps : List (String × String))
    (f : String) (rest : List String) (h : fs f = none) :
    versionLoop fs parsers deps (f :: rest) =
      versionLoop fs parsers deps rest := by
  simp [versionLoop, h]

theorem versionLoop_head_some (fs : String → Option String)
    (parsers : LockfileParsers) (deps : List (String × String))
    (f : String) (rest : List String) (raw : String) (h : fs f = some raw) :
    versionLoop fs parsers deps (f :: rest) =
      (match versionTryFile parsers deps f raw with
       | .found v => some v
       | .panicked => none
       | .missed => versionLoop fs parsers deps rest) := by
  simp [versionLoop, h]

theorem versionLoop_skip_pnpm (fs : String → Option String)
    (parsers : LockfileParsers) (deps : List (String × String))
    (rest : List String) (h : noStopPnpm fs parsers) :
    versionLoop fs parsers deps ("pnpm-lock.yaml" :: rest) =
      versionLoop fs parsers deps rest := by
  rcases h with h | ⟨raw, hr, hp⟩
  · exact versionLoop_head_none fs parsers deps _ rest h
  · rw [versionLoop_head_some fs parsers deps _ rest raw hr,
      versionTryFile_pnpm, hp]

theorem versionLoop_skip_yarn (fs : String → Option String)
    (parsers : LockfileParsers) (deps : List (String × String))
    (rest : List String) (h : noStopYarn fs deps) :
    versionLoop fs parsers deps ("yarn.lock" :: rest) =
      versionLoop fs parsers deps rest := by
  rcases h with h | ⟨raw, hr, hs⟩
  · exact versionLoop_head_none fs parsers deps _ rest h
  · rw [versionLoop_head_some fs parsers deps _ rest raw hr,
      versionTryFile_yarn, hs]

theorem versionLoop_skip_shrinkwrap (fs : String → Option String)
    (parsers : LockfileParsers) (deps : List (String × String))
    (rest : List String) (h : noStopNpm fs parsers "npm-shrinkwrap.json") :
    versionLoop fs parsers deps ("npm-shrinkwrap.json" :: rest) =
      versionLoop fs parsers deps rest := by
  rcases h with h | ⟨raw, hr, hp⟩
  · exact versionLoop_head_none fs parsers deps _ rest h
  · rw [versionLoop_head_some fs parsers deps _ rest raw hr,
      versionTryFile_shrinkwrap, hp]

theorem versionLoop_skip_packagelock (fs : String → Option String)
    (parsers : LockfileParsers) (deps : List (String × String))
    (rest : List String) (h : noStopNpm fs parsers "package-lock.json") :
    versionLoop fs parsers deps ("package-lock.json" :: rest) =
      versionLoop fs parsers deps rest := by
  rcases h with h | ⟨raw, hr, hp⟩
  · exact versionLoop_head_none fs parsers deps _ rest h
  · rw [versionLoop_head_some fs parsers deps _ rest raw hr,
      versionTryFile_packagelock, hp]

theorem version_pnpm_parsed (fs : String → Option String)
    (parsers : LockfileParsers) (deps : List (String × String))
    (raw : String) (lockfile : PnpmLockfile)
    (h1 : fs "pnpm-lock.yaml" = some raw)
    (h2 : parsers.pnpm raw = some lockfile) :
    Version fs parsers deps =
      some ((goSplitChar '(' (lookupD lockfile.dependencies "next")).headD "") := by
  simp [Version, possibleLockfileFilenames, versionLoop, h1,
    versionTryFile_pnpm, h2]

/-- C1 counterexample: `pnpm-lock.yaml` exists and yaml-parses (an
empty file decodes to the zero `PnpmLockfile`, as `yaml.Unmarshal`
does on empty input) but contains no entry for next, so there is no
non-empty match anywhere; the claim demands the manifest fallback
`"^14.0.0"`, yet the code returns the empty string extracted from the
pnpm lockfile. -/
theorem C1_counterexample :
    Version (fun f => if f = "pnpm-lock.yaml" then some "" else none)
      ⟨fun _ => some ⟨[]⟩, fun _ => none⟩ [("next", "^14.0.0")] = some "" ∧
    ("" : String) ≠ "^14.0.0" := by
  exact ⟨rfl, by decide⟩

/-- C1 amended, as an exhaustive case analysis of the decision tree:
`Version` examines the lockfiles in the fixed priority order and stops
at the first file that yields a result — a parsed pnpm or npm lockfile
returns its extraction even when empty, and a yarn.lock returns (or
panics) exactly when a matched block has a version line, falling
through otherwise; the manifest's declared specifier is returned in
precisely the residual case, when every candidate is missing, fails to
parse, or (yarn) yields no match.  The six conjuncts cover every
execution, so the fallback happens only in the last one. -/
theorem C1_amended_resolution_order (fs : String → Option String)
    (parsers : LockfileParsers) (deps : List (String × String)) :
    (∀ raw lockfile, fs "pnpm-lock.yaml" = some raw →
      parsers.pnpm raw = some lockfile →
      Version fs parsers deps =
        some ((goSplitChar '(' (lookupD lockfile.dependencies "next")).headD "")) ∧
    (∀ raw v, noStopPnpm fs parsers → fs "yarn.lock" = some raw →
      yarnScan (lookupD deps "next") (goSplitBlocks raw) = .found v →
      Version fs parsers deps = some v) ∧
    (∀ raw, noStopPnpm fs parsers → fs "yarn.lock" = some raw →
      yarnScan (lookupD deps "next") (goSplitBlocks raw) = .panicked →
      Version fs parsers deps = none) ∧
    (∀ raw lockfile, noStopPnpm fs parsers → noStopYarn fs deps →
      fs "npm-shrinkwrap.json" = some raw → parsers.npm raw = some lockfile →
      Version fs parsers deps =
        some (lookupD lockfile.packages "node_modules/next")) ∧
    (∀ raw lockfile, noStopPnpm fs parsers → noStopYarn fs deps →
      noStopNpm fs parsers "npm-shrinkwrap.json" →
      fs "package-lock.json" = some raw → parsers.npm raw = some lockfile →
      Version fs parsers deps =
        some (lookupD lockfile.packages "node_modules/next")) ∧
    (noStopPnpm fs parsers → noStopYarn fs deps →
      noStopNpm fs parsers "npm-shrinkwrap.json" →
      noStopNpm fs parsers "package-lock.json" →
      Version fs parsers deps = some (lookupD deps "next")) := by
  refine ⟨?_, ?_, ?_, ?_, ?_, ?_⟩
  · exact fun raw lockfile h1 h2 =>
      version_pnpm_parsed fs parsers deps raw lockfile h1 h2
  · intro raw v h0 hr hs
    show versionLoop fs parsers deps possibleLockfileFilenames = some v
    simp only [possibleLockfileFilenames]
    rw [versionLoop_skip_pnpm fs parsers deps _ h0,
      versionLoop_head_some fs parsers deps _ _ raw hr,
      versionTryFile_yarn, hs]
  · intro raw h0 hr hs
    show versionLoop fs parsers deps possibleLockfileFilenames = none
    simp only [possibleLockfileFilenames]
    rw [versionLoop_skip_pnpm fs parsers deps _ h0,
      versionLoop_head_some fs parsers deps _ _ raw hr,
      versionTryFile_yarn, hs]
  · intro raw lockfile h0 h1 hr hp
    show versionLoop fs parsers deps possibleLockfileFilenames =
      some (lookupD lockfile.packages "node_modules/next")
    simp only [possibleLockfileFilenames]
    rw [versionLoop_skip_pnpm fs parsers deps _ h0,
      versionLoop_skip_yarn fs parsers deps _ h1,
      versionLoop_head_some fs parsers deps _ _ raw hr,
      versionTryFile_shrinkwrap, hp]
  · intro raw lockfile h0 h1 h2 hr hp
    show versionLoop fs parsers deps possibleLockfileFilenames =
      some (lookupD lockfile.packages "node_modules/next")
    simp only [possibleLockfileFilenames]
    rw [versionLoop_skip_pnpm fs parsers deps _ h0,
      versionLoop_skip_yarn fs parsers deps _ h1,
      versionLoop_skip_shrinkwrap fs parsers deps _ h2,
      versionLoop_head_some fs parsers deps _ _ raw hr,
      versionTryFile_packagelock, hp]
  · intro h0 h1 h2 h3
    show versionLoop fs parsers deps possibleLockfileFilenames =
      some (lookupD deps "next")
    simp only [possibleLockfileFilenames]
    rw [versionLoop_skip_pnpm fs parsers deps _ h0,
      versionLoop_skip_yarn fs parsers deps _ h1,
      versionLoop_skip_shrinkwrap fs parsers deps _ h2,
      versionLoop_skip_packagelock fs parsers deps _ h3]
    rfl

/-- Witness for the amended C1, exercising four of the conjuncts: the
residual manifest fallback with nothing present, a parsed pnpm
lockfile stopping the scan, a yarn.lock match reached after a missing
pnpm file, and the package-lock.json branch reached after the three
earlier candidates miss. -/
theorem C1_amended_witness :
    Version (fun _ => none) ⟨fun _ => none, fun _ => none⟩
      [("next", "^14.0.0")] = some "^14.0.0" ∧
    Version (fun f => if f = "pnpm-lock.yaml" then some "lock" else none)
      ⟨fun _ => some ⟨[("next", "13.5.1")]⟩, fun _ => none⟩
      [("next", "^13.0.0")] = some "13.5.1" ∧
    Version (fun f => if f = "yarn.lock"
        then some "next@13.4.0:\n  version \"13.4.0\"" else none)
      ⟨fun _ => none, fun _ => none⟩ [] = some "13.4.0" ∧
    Version (fun f => if f = "package-lock.json" then some "{}" else none)
      ⟨fun _ => none, fun _ => some ⟨[("node_modules/next", "14.1.0")]⟩⟩
      [] = some "14.1.0" := by
  refine ⟨?_, ?_, ?_, ?_⟩
  · exact (C1_amended_resolution_order _ _ _).2.2.2.2.2
      (Or.inl rfl) (Or.inl rfl) (Or.inl rfl) (Or.inl rfl)
  · exact ((C1_amended_resolution_order _ _ _).1 "lock"
      ⟨[("next", "13.5.1")]⟩ rfl rfl).trans (by decide)
  · exact (C1_amended_resolution_order _ _ _).2.1
      "next@13.4.0:\n  version \"13.4.0\"" "13.4.0" (Or.inl rfl) rfl (by decide)
  · exact ((C1_amended_resolution_order _ _ _).2.2.2.2.1 "{}"
      ⟨[("node_modules/next", "14.1.0")]⟩ (Or.inl rfl) (Or.inl rfl)
      (Or.inl rfl) rfl rfl).trans (by decide)

/-- C7: for every pnpm lockfile entry for next whose version string
carries a trailing parenthesized qualifier — that is, has the form
`base ++ "(" ++ qualifier` with no parenthesis in `base` — `Version`
resolves to exactly the portion `base` before the first parenthesis. -/
theorem C7_pnpm_paren_qualifier (fs : String → Option String)
    (parsers : LockfileParsers) (deps : List (String × String))
    (raw : String) (lockfile : PnpmLockfile) (base qualifier : String)
    (h1 : fs "pnpm-lock.yaml" = some raw)
    (h2 : parsers.pnpm raw = some lockfile)
    (h3 : lookupD lockfile.dependencies "next" = base ++ "(" ++ qualifier)
    (hb : '(' ∉ base.data) :
    Version fs parsers deps = some base := by
  rw [version_pnpm_parsed fs parsers deps raw lockfile h1 h2, h3]
  have hdata : (base ++ "(" ++ qualifier).data =
      base.data ++ '(' :: qualifier.data := by
    rw [String.data_append, String.data_append, List.append_assoc]
    rfl
  obtain ⟨tl, htl⟩ := splitPredList_append_sep (fun x => x == '(')
    base.data qualifier.data '('
    (fun x hx => by
      simp only [beq_eq_false_iff_ne, ne_eq]
      intro hEq
      exact hb (hEq ▸ hx))
    (by simp)
  rw [goSplitChar, hdata, htl]
  simp only [List.map_cons, List.headD_cons]
  rw [asString_data]

/-- Witness for C7 at the spec's example version string
`"14.2.3(react@18.2.0)"`, decomposed as `"14.2.3" ++ "(" ++
"react@18.2.0)"`. -/
theorem C7_witness :
    Version (fun f => if f = "pnpm-lock.yaml" then some "lock" else none)
      ⟨fun _ => some ⟨[("next", "14.2.3(react@18.2.0)")]⟩, fun _ => none⟩
      [("next", "^14.0.0")] = some "14.2.3" :=
  C7_pnpm_paren_qualifier _ _ _ "lock" ⟨[("next", "14.2.3(react@18.2.0)")]⟩
    "14.2.3" "react@18.2.0)" rfl rfl (by decide) (by decide)

/-- C8 evaluation: the yarn branch is not total.  On a yarn.lock whose
matched block's first `"version"` line has a single whitespace-separated
field, `strings.Fields(line)[1]` indexes out of range and the Go
program panics (modelled as the result `none`), contradicting the
stated never-fails policy. -/
theorem C8_yarn_panic :
    Version (fun f => if f = "yarn.lock" then some "next@14.2.3\nversion" else none)
      ⟨fun _ => none, fun _ => none⟩ [] = none := by
  rfl

/-- C9: when the manifest has no entry for next the declared specifier
is the empty string, every block contains the empty string, and the
yarn scan degenerates to selecting the first block containing
`"next@"` regardless of which version it pins. -/
theorem C9_yarn_empty_specifier (deps : List (String × String))
    (h : deps.lookup "next" = none) :
    lookupD deps "next" = "" ∧
    (∀ b, goContains b (lookupD deps "next") = true) ∧
    (∀ blocks, yarnScan (lookupD deps "next") blocks = yarnScanFirstNext blocks) := by
  have hd : lookupD deps "next" = "" := by
    rw [lookupD, h]
    rfl
  refine ⟨hd, fun b => by rw [hd]; exact goContains_empty b, fun blocks => ?_⟩
  induction blocks with
  | nil => rfl
  | cons b rest ih =>
    rw [hd] at ih
    rw [yarnScan, yarnScanFirstNext, hd, goContains_empty, Bool.and_true, ih]

/-- Witness for C9: a manifest without next and a yarn block pinning an
arbitrary version. -/
theorem C9_witness :
    yarnScan (lookupD [("react", "18.2.0")] "next")
      ["next@13.0.0:\n  version \"13.0.0\""] =
      yarnScanFirstNext ["next@13.0.0:\n  version \"13.0.0\""] :=
  (C9_yarn_empty_specifier [("react", "18.2.0")] (by decide)).2.2 _

end Buildpacks
